import Mathlib

/-!
Verification of the chart-rendering and grouping engine of the
benchmark-comment-and-plot action (`src/updateBenchmarkData.ts`, browser
script part), as a shallow embedding in Lean.

JS numbers are modelled as rationals (`ℚ`): every arithmetic operation the
embedded code performs (comparison against the powers of ten 1e3/1e6/1e9,
multiplication and division by those constants) is exact on the IEEE
doubles involved in the claims, so the rational semantics agrees with the
JS semantics there.  DOM attribute values and JS string/number coercion
are modelled explicitly where the code relies on them.
-/

namespace BenchPlot

/-! ## JS value coercions used by the hidden-by counter logic

`setChartHiddenStatus` stores the counter in a DOM attribute, so it reads
it back as a *string* (or `null` when absent).  The JS operators it then
applies are modelled faithfully: `s + 1` on a string concatenates the
decimal rendering of `1`; `s - 1` coerces the string to a number first;
truthiness of a string is "not empty"; truthiness of a number is "not 0".
-/

/-- A JS value that is either a number or a string, as flows through the
`hiddenBy` variable of `setChartHiddenStatus`. -/
inductive JSVal where
  | num : Int → JSVal
  | str : String → JSVal
deriving DecidableEq, Repr

/-- JS `Number(s)` restricted to decimal numerals (optionally signed),
which are the only strings the hidden-by attribute can hold. -/
def parseDecInt (s : String) : Int :=
  match s.data with
  | '-' :: ds => - (ds.foldl (fun n c => n * 10 + ((c.toNat : Int) - 48)) 0)
  | ds => ds.foldl (fun n c => n * 10 + ((c.toNat : Int) - 48)) 0

/-- JS `ToNumber` on the values reachable in `setChartHiddenStatus`. -/
def jsToNumber : JSVal → Int
  | .num n => n
  | .str s => parseDecInt s

/-- JS `ToString` (as performed by `setAttribute`). -/
def jsValToString : JSVal → String
  | .num n => toString n
  | .str s => s

/-- JS `v + 1`: numeric increment on a number, but *string concatenation*
with `"1"` on a string. -/
def jsAddOne : JSVal → JSVal
  | .num n => .num (n + 1)
  | .str s => .str (s ++ "1")

/-- JS `v - 1`: always numeric (strings are coerced). -/
def jsSubOne (v : JSVal) : JSVal := .num (jsToNumber v - 1)

/-- JS truthiness of the values reachable here. -/
def jsTruthy : JSVal → Bool
  | .num n => n != 0
  | .str s => s != ""

/-! ## Group & Filter Engine: `setChartHiddenStatus` -/

/-- The per-chart state mutated by `setChartHiddenStatus`:
the `hidden-by` DOM attribute (absent initially, then a string), and
whether `display: none` is set on the chart's style. -/
structure ChartState where
  hiddenBy : Option String
  displayNone : Bool
deriving DecidableEq, Repr

/-- A chart starts with no `hidden-by` attribute and visible. -/
def initialChartState : ChartState := ⟨none, false⟩

/-- One update of a single matching chart inside `setChartHiddenStatus`:

```js
let hiddenByAttribute = chart.getAttribute("hidden-by");
let hiddenBy = hiddenByAttribute ? hiddenByAttribute : 0;
if (hide) {
  chart.style.setProperty("display", "none");
  hiddenBy += 1;
} else {
  if (hiddenBy) { hiddenBy -= 1; } else { hiddenBy = 0; }
  if (hiddenBy == 0) { chart.style.setProperty("display", null); }
}
chart.setAttribute("hidden-by", hiddenBy);
```
-/
def setChartHiddenStep (hide : Bool) (chart : ChartState) : ChartState :=
  let hiddenBy : JSVal :=
    match chart.hiddenBy with
    | some s => if s = "" then JSVal.num 0 else JSVal.str s
    | none => JSVal.num 0
  if hide then
    let hiddenBy := jsAddOne hiddenBy
    { hiddenBy := some (jsValToString hiddenBy), displayNone := true }
  else
    let hiddenBy := if jsTruthy hiddenBy then jsSubOne hiddenBy else JSVal.num 0
    let displayNone := if jsToNumber hiddenBy = 0 then false else chart.displayNone
    { hiddenBy := some (jsValToString hiddenBy), displayNone := displayNone }

/-- A rendered chart element: the group-key attributes set by
`addAttributesToChartElement`, and the mutable hidden state. -/
structure ChartElem where
  attrs : List (String × String)
  state : ChartState
deriving DecidableEq, Repr

/-- `setChartHiddenStatus(hide, key, value)`: update every chart whose
`key` attribute equals `value`. -/
def setChartHiddenStatus (hide : Bool) (key value : String)
    (charts : List ChartElem) : List ChartElem :=
  charts.map fun chart =>
    if chart.attrs.lookup key = some value then
      { chart with state := setChartHiddenStep hide chart.state }
    else chart

/-- A checkbox toggle event: `hide` is true when the box is unchecked. -/
structure ToggleEvent where
  hide : Bool
  key : String
  value : String
deriving DecidableEq, Repr

/-- Apply a sequence of checkbox toggle events. -/
def runToggles (events : List ToggleEvent) (charts : List ChartElem) :
    List ChartElem :=
  events.foldl (fun cs e => setChartHiddenStatus e.hide e.key e.value cs) charts

/-- The concrete scenario of the claim: one chart matching both
`os = linux` and `keySize = 512`. -/
def c1Chart : ChartElem :=
  ⟨[("os", "linux"), ("keySize", "512")], initialChartState⟩

/-- Uncheck linux, uncheck 512, re-check linux, re-check 512. -/
def c1Events : List ToggleEvent :=
  [⟨true, "os", "linux"⟩, ⟨true, "keySize", "512"⟩,
   ⟨false, "os", "linux"⟩, ⟨false, "keySize", "512"⟩]

/-! ## Key Codec

`buildKey` builds a JS object mapping each schema field to the record's
(stringified) value, `"-"` when the field is absent, and serializes it
with `JSON.stringify`; `parseKey` applies `JSON.parse` and fills absent
schema fields with `"-"`.

`JSON.stringify` on a flat string-valued object, and `JSON.parse` on its
output, are modelled on the fragment of strings containing no `"`, no
`\`, and no control characters (the "printable" values the spec's codec
contract quantifies over); on that fragment `JSON.stringify` emits every
string verbatim, so no escaping is modelled. -/

/-- A string is printable when it contains no quote, no backslash and no
control character; on such strings `JSON.stringify` performs no
escaping. -/
def printable (s : String) : Bool :=
  s.data.all fun c => c != '"' && c != '\\' && decide (32 ≤ c.toNat)

/-- The character `{`. -/
def lbrace : Char := Char.ofNat 123

/-- The character `}`. -/
def rbrace : Char := Char.ofNat 125

/-- The characters of one `"key":"value"` member of a serialized JSON
object. -/
def memberChars (kv : String × String) : List Char :=
  '"' :: kv.1.data ++ '"' :: ':' :: '"' :: kv.2.data ++ ['"']

/-- The characters of the members of a serialized JSON object, comma
separated, plus the closing brace. -/
def membersChars : List (String × String) → List Char
  | [] => [rbrace]
  | [kv] => memberChars kv ++ [rbrace]
  | kv :: rest => memberChars kv ++ ',' :: membersChars rest

/-- `JSON.stringify` on a flat JS object with string values (in property
insertion order), restricted to printable keys and values. -/
def jsonStringifyObj (l : List (String × String)) : String :=
  String.mk (lbrace :: membersChars l)

/-- Consume characters up to (and including) the next `"`. -/
def spanQuote : List Char → Option (List Char × List Char)
  | [] => none
  | c :: cs =>
    if c = '"' then some ([], cs)
    else
      match spanQuote cs with
      | some (a, r) => some (c :: a, r)
      | none => none

/-- Parse the members of a JSON object (after the opening brace),
including the closing brace, for the escape-free fragment produced by
`jsonStringifyObj` on printable strings. -/
def parseMembers : Nat → List Char → Option (List (String × String))
  | 0, _ => none
  | fuel + 1, cs =>
    match cs with
    | '"' :: cs1 =>
      match spanQuote cs1 with
      | some (k, ':' :: '"' :: cs3) =>
        match spanQuote cs3 with
        | some (v, rest) =>
          if rest = [rbrace] then some [(String.mk k, String.mk v)]
          else
            match rest with
            | ',' :: cs4 =>
              match parseMembers fuel cs4 with
              | some tail => some ((String.mk k, String.mk v) :: tail)
              | none => none
            | _ => none
        | none => none
      | _ => none
    | _ => none

/-- `JSON.parse` on the output format of `jsonStringifyObj` (a flat
object with printable string keys and values); `none` models a thrown
`SyntaxError`. -/
def jsonParseObj (s : String) : Option (List (String × String)) :=
  match s.data with
  | c :: rest =>
    if c = lbrace then
      if rest = [rbrace] then some []
      else parseMembers (rest.length + 1) rest
    else none
  | [] => none

/-- JS property assignment `obj[k] = v`: an existing key keeps its
position and gets the new value; a new key is appended. -/
def jsObjSet {β : Type} (obj : List (String × β)) (k : String) (v : β) :
    List (String × β) :=
  if (obj.lookup k).isSome then
    obj.map fun kv => if kv.1 = k then (k, v) else kv
  else obj ++ [(k, v)]

/-- The property list built by `buildKey`'s loop:
`key[s] = benchItem.hasOwnProperty(s) ? benchItem[s].toString() : "-"`
for each `s` of the schema, in order.  A record is modelled as an
association list from field name to stringified value; a missing key
models an absent property. -/
def buildKeyPairs (schema : List String) (benchItem : List (String × String)) :
    List (String × String) :=
  schema.foldl (fun key s => jsObjSet key s ((benchItem.lookup s).getD "-")) []

/-- `buildKey(benchItem, schema)`. -/
def buildKey (benchItem : List (String × String)) (schema : List String) :
    String :=
  jsonStringifyObj (buildKeyPairs schema benchItem)

/-- `parseKey(keyString, schema)`: `JSON.parse` the key, then set every
schema field that is not a property to `"-"`. -/
def parseKey (keyString : String) (schema : List String) :
    Option (List (String × String)) :=
  match jsonParseObj keyString with
  | none => none
  | some key =>
    some (schema.foldl
      (fun key s => if (key.lookup s).isSome then key else jsObjSet key s "-")
      key)

/-! ## Data model

Only the attributes the embedded functions read are modelled: `Commit`
keeps `id`, `message`, `url`; timestamps are epoch milliseconds as
integers; benchmark values are rationals; the open-ended classification
fields of a `BenchResult` are an association list of stringified
values. -/

/-- The commit identity attached to a history entry. -/
structure Commit where
  id : String
  message : String
  url : String
deriving DecidableEq, Repr

/-- One measured benchmark result: `value`, `unit`, optional `range`,
plus the open-ended schema-declared classification fields. -/
structure BenchResult where
  value : ℚ
  unit : String
  range : Option String
  fields : List (String × String)
deriving DecidableEq, Repr

/-- One benchmark run (a `HistoryEntry` of the spec). -/
structure Benchmark where
  commit : Commit
  date : Int
  bigger_is_better : Bool
  benches : List BenchResult
deriving DecidableEq, Repr

/-- One flattened observation `{ commit, date, bench }` as produced at
the start of `separateAllTraces`. -/
structure Observation where
  commit : Commit
  date : Int
  bench : BenchResult
deriving DecidableEq, Repr

/-- One chart series as built by `separateAllTraces` and decorated later
(`y` by `adjustDataAndUnit`; `name` and `text` by
`addLegendNameAndTooltip`).  The constant JS fields `showlegend: true`
and `hoverinfo: "text"` are omitted. -/
structure Trace where
  metadata : List (String × String)
  x : List Int
  dataNs : List ℚ
  dataset : List Observation
  y : List ℚ
  name : String
  text : List String
deriving DecidableEq, Repr

/-! ## Unit Normalizer -/

/-- `getNanoseconds(value, unit)`: dispatch on `unit[0]` (`undefined`
when the unit string is empty); an unrecognized prefix throws. -/
def getNanoseconds (value : ℚ) (unit : String) : Except String ℚ :=
  match unit.data.head? with
  | some unitIdentifier =>
    if unitIdentifier = 'μ' ∨ unitIdentifier = 'µ' ∨ unitIdentifier = 'u' then
      Except.ok (value * 1000)
    else if unitIdentifier = 'n' then Except.ok value
    else if unitIdentifier = 'm' then Except.ok (value * 1000000)
    else if unitIdentifier = 's' then Except.ok (value * 1000000000)
    else Except.error ("undefined unit: " ++ toString unitIdentifier)
  | none => Except.error "undefined unit: undefined"

/-- JS `Math.max(...l)`: `-Infinity` on the empty list, modelled as
`⊥ : WithBot ℚ`. -/
def jsMathMax (l : List ℚ) : WithBot ℚ :=
  l.foldl (fun a x => max a (x : WithBot ℚ)) ⊥

/-- `adjustDataAndUnit(traces)`: pick one display unit from the maximum
nanosecond value across all traces, divide every trace's data by the one
scale factor into `y`, and return the unit (the source mutates the
traces in place; the model returns them). -/
def adjustDataAndUnit (traces : List Trace) : String × List Trace :=
  let maxes := traces.map fun trace => jsMathMax trace.dataNs
  let maxValue := maxes.foldl max (⊥ : WithBot ℚ)
  let su : ℚ × String :=
    if ((1000000000 : ℚ) : WithBot ℚ) < maxValue then (1000000000, "s/iter")
    else if ((1000000 : ℚ) : WithBot ℚ) < maxValue then (1000000, "ms/iter")
    else if ((1000 : ℚ) : WithBot ℚ) < maxValue then (1000, "μs/iter")
    else (1, "ns/iter")
  (su.2, traces.map fun trace =>
    { trace with y := trace.dataNs.map fun d => d / su.1 })

/-- Concrete input for the display-unit selection scenario: one trace
whose normalized data is `[1200000000, 500]` nanoseconds. -/
def c4Trace : Trace :=
  { metadata := [], x := [0, 1], dataNs := [1200000000, 500],
    dataset := [], y := [], name := "", text := [] }

/-! ## Trace Builder -/

/-- One step of `Object.groupBy`: append `x` to the group of key `k`,
creating the group at the end when the key is new. -/
def insertGrouped {α : Type} (acc : List (String × List α)) (k : String)
    (x : α) : List (String × List α) :=
  if (acc.lookup k).isSome then
    acc.map fun kv => if kv.1 = k then (kv.1, kv.2 ++ [x]) else kv
  else acc ++ [(k, [x])]

/-- `Object.groupBy(l, f)` with string keys, as a key-ordered list of
groups.  The keys produced here are JSON strings (starting with `{`),
never integer-like, so `Object.entries` of the result enumerates them in
first-occurrence insertion order, which the list order models. -/
def groupByKey {α : Type} (f : α → String) (l : List α) :
    List (String × List α) :=
  l.foldl (fun acc x => insertGrouped acc (f x) x) []

/-- The body of `separateAllTraces`' per-group map: parse the group's
key string back into metadata, convert every observation to nanoseconds
(a thrown exception is modelled as `Except.error`), set
`metadata.unit = "ns/iter"`, and assemble the trace. -/
def traceOfGroup (schema : List String) (kd : String × List Observation) :
    Except String Trace :=
  match parseKey kd.1 schema with
  | none => Except.error "SyntaxError: JSON.parse"
  | some metadata =>
    match kd.2.mapM (fun d => getNanoseconds d.bench.value d.bench.unit) with
    | Except.error e => Except.error e
    | Except.ok dataNs =>
      Except.ok
        { metadata := jsObjSet metadata "unit" "ns/iter"
          x := kd.2.map (·.date)
          dataNs := dataNs
          dataset := kd.2
          y := [], name := "", text := [] }

/-- The first step of `separateAllTraces`: flatten the runs into
`{ commit, date, bench }` observations, keeping the commit data. -/
def flattenObservations (commits : List Benchmark) : List Observation :=
  (commits.map fun commitEntry =>
    commitEntry.benches.map fun bench =>
      Observation.mk commitEntry.commit commitEntry.date bench).flatten

/-- `separateAllTraces(commits, schema)`: flatten the runs into
observations keeping commit data, group them by schema key, and build
one trace per group. -/
def separateAllTraces (commits : List Benchmark) (schema : List String) :
    Except String (List Trace) :=
  let data := flattenObservations commits
  let groupedData :=
    groupByKey (fun benchEntry => buildKey benchEntry.bench.fields schema) data
  groupedData.mapM (traceOfGroup schema)

/-- Two runs whose single results carry the same schema fields but
different commits and dates. -/
def c8R1 : BenchResult := ⟨5, "ns", none, [("name", "x"), ("os", "linux")]⟩

/-- Second result with the same schema key as `c8R1`. -/
def c8R2 : BenchResult := ⟨7, "ms", none, [("name", "x"), ("os", "linux")]⟩

/-- First history entry. -/
def c8B1 : Benchmark := ⟨⟨"c1", "m1", "u1"⟩, 100, false, [c8R1]⟩

/-- Second history entry, later date, same schema key. -/
def c8B2 : Benchmark := ⟨⟨"c2", "m2", "u2"⟩, 200, false, [c8R2]⟩

/-- `getLegendName(trace, groupBy, schema)`: values of the schema-ordered
metadata entries whose key is neither grouped-by nor `unit` and whose
value is not `undefined`, joined with spaces. -/
def getLegendName (trace : Trace) (groupBy schema : List String) : String :=
  let orderedEntries := schema.map fun key => (key, trace.metadata.lookup key)
  String.intercalate " "
    ((orderedEntries.filter fun kv =>
        !(groupBy.contains kv.1) && kv.1 != "unit" && !kv.2.isNone).map
      fun kv => kv.2.getD "")

/-- `getObservationTooltipText(name, observation)`. -/
def getObservationTooltipText (name : String) (observation : Observation) :
    String :=
  let value := observation.bench.value
  let unit := observation.bench.unit
  let range := observation.bench.range
  let commitId := observation.commit.id
  let message := observation.commit.message
  let url := observation.commit.url
  let rangeText :=
    match range with
    | some r => if r = "" then "" else r
    | none => ""
  "<b>" ++ name ++ "</b><br>value: " ++ toString value ++ " " ++ unit ++ " "
    ++ rangeText ++ "<br>commit id: " ++ commitId ++ "<br>commit name: "
    ++ message ++ "<br>commit url: " ++ url

/-- `addLegendNameAndTooltip(trace, groupBy, schema)`: set the legend
name, then the per-observation tooltip strings. -/
def addLegendNameAndTooltip (trace : Trace) (groupBy schema : List String) :
    Trace :=
  let named := { trace with name := getLegendName trace groupBy schema }
  { named with text := named.dataset.map fun observation =>
      getObservationTooltipText named.name observation }

/-- `needle` occurs as a contiguous substring of `hay`. -/
def containsStr (hay needle : String) : Prop :=
  ∃ pre post, hay = pre ++ (needle ++ post)

/-- Concrete observation for the tooltip scenario. -/
def c7Obs : Observation :=
  ⟨⟨"abc123", "commit message", "https://example.org/c"⟩, 42,
   ⟨100, "ns", some "x 5", [("name", "sha256")]⟩⟩

/-- Concrete trace holding `c7Obs`. -/
def c7Trace : Trace :=
  { metadata := [("name", "sha256"), ("os", "linux"), ("unit", "ns/iter")],
    x := [42], dataNs := [100], dataset := [c7Obs], y := [], name := "",
    text := [] }

/-! ## Defaults for missing schema / groupBy -/

/-- The `schema` (or `groupBy`) field of `window.BENCHMARK_DATA`: nullish
(`!schema`), present but not an object, or an object mapping suite name
to a field list. -/
inductive JsField where
  | absent
  | nonObject
  | obj (entries : List (String × List String))
deriving DecidableEq, Repr

/-- The documented default schema. -/
def defaultSchema : List String :=
  ["name", "platform", "os", "keySize", "api", "category"]

/-- The documented default groupBy. -/
def defaultGroupBy : List String := ["os"]

/-- `retrieveSchema(benchSet)`; the boolean records whether the
`console.error` diagnostic was emitted. -/
def retrieveSchema (schemaField : JsField) (benchSet : String) :
    List String × Bool :=
  match schemaField with
  | .obj m =>
    match m.lookup benchSet with
    | some s => (s, false)
    | none => (defaultSchema, true)
  | _ => (defaultSchema, true)

/-- `retrieveGroupBy(benchSet)`; the boolean records whether the
`console.error` diagnostic was emitted. -/
def retrieveGroupBy (groupByField : JsField) (benchSet : String) :
    List String × Bool :=
  match groupByField with
  | .obj m =>
    match m.lookup benchSet with
    | some g => (g, false)
    | none => (defaultGroupBy, true)
  | _ => (defaultGroupBy, true)

/-! ## History update (`addBenchmarkToDataJson`) -/

/-- The persisted data document. -/
structure DataJson where
  lastUpdate : Int
  repoUrl : String
  entries : List (String × List Benchmark)
  groupBy : Option (List (String × List String))
  schema : Option (List (String × List String))
deriving DecidableEq, Repr

/-- `addBenchmarkToDataJson(groupBy, schema, benchName, bench, data,
maxItems)`: returns the previous benchmark (the JS return value) and the
updated document (the JS function mutates `data`).  `Date.now()` is the
`now` parameter. -/
def addBenchmarkToDataJson (groupBy schema : List String) (benchName : String)
    (bench : Benchmark) (data : DataJson) (maxItems : Option Nat) (now : Int) :
    Option Benchmark × DataJson :=
  let data := { data with
    lastUpdate := now
    groupBy := some (jsObjSet (data.groupBy.getD []) benchName groupBy)
    schema := some (jsObjSet (data.schema.getD []) benchName schema) }
  match data.entries.lookup benchName with
  | none =>
    (none, { data with entries := jsObjSet data.entries benchName [bench] })
  | some suites =>
    let prevBench := suites.reverse.find? fun e => e.commit.id != bench.commit.id
    let suites := suites ++ [bench]
    let suites :=
      match maxItems with
      | some m =>
        if suites.length > m then suites.drop (suites.length - m) else suites
      | none => suites
    (prevBench, { data with entries := jsObjSet data.entries benchName suites })

/-- History entry used by the append-semantics scenarios. -/
def c10B1 : Benchmark := ⟨⟨"c1", "m1", "u1"⟩, 100, false, []⟩

/-- A later entry with a different commit id. -/
def c10B2 : Benchmark := ⟨⟨"c2", "m2", "u2"⟩, 200, false, []⟩

/-- A document with an existing two-entry suite. -/
def c10Data : DataJson := ⟨0, "", [("suite", [c10B1, c10B1])], none, none⟩

/-- A document with no suites. -/
def c10Empty : DataJson := ⟨0, "", [], none, none⟩

/-! ## Theorems -/

theorem lookup_map_set_self {β : Type} :
    ∀ (obj : List (String × β)) (k : String) (v : β),
      (obj.lookup k).isSome = true →
      (obj.map fun kv => if kv.1 = k then (k, v) else kv).lookup k = some v
  | [], k, v, h => by simp at h
  | (a, b) :: t, k, v, h => by
    by_cases hak : a = k
    · subst hak
      simp
    · have ht : (t.lookup k).isSome = true := by
        rw [List.lookup_cons, beq_false_of_ne fun he => hak he.symm] at h
        exact h
      have := lookup_map_set_self t k v ht
      simp only [List.map_cons, if_neg hak, List.lookup_cons,
        beq_false_of_ne fun he => hak he.symm]
      exact this

theorem lookup_map_set_ne {β : Type} :
    ∀ (obj : List (String × β)) (k : String) (v : β) (k' : String),
      ¬ k' = k →
      (obj.map fun kv => if kv.1 = k then (k, v) else kv).lookup k'
        = obj.lookup k'
  | [], _, _, _, _ => by simp
  | (a, b) :: t, k, v, k', h => by
    have ih := lookup_map_set_ne t k v k' h
    by_cases hak : a = k
    · subst hak
      simp only [List.map_cons, List.lookup_cons, if_pos rfl, if_true,
        beq_false_of_ne h]
      simpa [List.lookup_cons, beq_false_of_ne h] using ih
    · by_cases hk' : k' = a
      · subst hk'
        simp [List.lookup_cons, if_neg hak]
      · simp only [List.map_cons, if_neg hak, List.lookup_cons,
          beq_false_of_ne hk']
        exact ih

theorem lookup_append_single_self {β : Type} :
    ∀ (obj : List (String × β)) (k : String) (v : β),
      obj.lookup k = none → (obj ++ [(k, v)]).lookup k = some v
  | [], k, v, _ => by simp
  | (a, b) :: t, k, v, h => by
    have hak : ¬ k = a := by
      intro he
      simp [List.lookup_cons, he] at h
    rw [List.lookup_cons, beq_false_of_ne hak] at h
    have := lookup_append_single_self t k v h
    simpa [List.lookup_cons, beq_false_of_ne hak] using this

theorem lookup_append_single_ne {β : Type} :
    ∀ (obj : List (String × β)) (k : String) (v : β) (k' : String),
      ¬ k' = k → (obj ++ [(k, v)]).lookup k' = obj.lookup k'
  | [], k, v, k', h => by simp [List.lookup_cons, beq_false_of_ne h]
  | (a, b) :: t, k, v, k', h => by
    have ih := lookup_append_single_ne t k v k' h
    by_cases hk' : k' = a
    · subst hk'
      simp [List.lookup_cons]
    · simpa [List.lookup_cons, beq_false_of_ne hk'] using ih

theorem lookup_jsObjSet {β : Type} (obj : List (String × β)) (k : String)
    (v : β) (k' : String) :
    (jsObjSet obj k v).lookup k' = if k' = k then some v else obj.lookup k' := by
  unfold jsObjSet
  by_cases hs : (obj.lookup k).isSome = true
  · rw [if_pos hs]
    by_cases hk' : k' = k
    · rw [if_pos hk', hk']
      exact lookup_map_set_self obj k v hs
    · rw [if_neg hk', lookup_map_set_ne obj k v k' hk']
  · rw [if_neg hs]
    have hnone : obj.lookup k = none := by
      cases h : obj.lookup k with
      | none => rfl
      | some w => rw [h] at hs; simp at hs
    by_cases hk' : k' = k
    · rw [if_pos hk', hk']
      exact lookup_append_single_self obj k v hnone
    · rw [if_neg hk', lookup_append_single_ne obj k v k' hk']

theorem mem_jsObjSet {β : Type} {obj : List (String × β)} {k : String}
    {v : β} {kv' : String × β} (h : kv' ∈ jsObjSet obj k v) :
    kv' ∈ obj ∨ kv' = (k, v) := by
  unfold jsObjSet at h
  by_cases hs : (obj.lookup k).isSome = true
  · rw [if_pos hs] at h
    simp only [List.mem_map] at h
    obtain ⟨kv, hmem, heq⟩ := h
    by_cases hk : kv.1 = k
    · rw [if_pos hk] at heq
      right; exact heq.symm
    · rw [if_neg hk] at heq
      left; exact heq ▸ hmem
  · rw [if_neg hs] at h
    simpa using h

theorem foldl_jsObjSet_lookup (val : String → String) :
    ∀ (schema : List String) (acc : List (String × String)) (s : String),
      (s ∈ schema ∨ acc.lookup s = some (val s)) →
      (schema.foldl (fun key f => jsObjSet key f (val f)) acc).lookup s
        = some (val s)
  | [], acc, s, h => by
    rcases h with h | h
    · exact absurd h (List.not_mem_nil s)
    · simpa using h
  | a :: t, acc, s, h => by
    rw [List.foldl_cons]
    apply foldl_jsObjSet_lookup val t (jsObjSet acc a (val a)) s
    by_cases hsa : s = a
    · right
      rw [lookup_jsObjSet, if_pos hsa, hsa]
    · rcases h with h | h
      · rcases List.mem_cons.mp h with h | h
        · exact absurd h hsa
        · left; exact h
      · right
        rw [lookup_jsObjSet, if_neg hsa]
        exact h

theorem mem_foldl_jsObjSet (val : String → String) :
    ∀ (schema : List String) (acc : List (String × String))
      (kv : String × String),
      kv ∈ schema.foldl (fun key f => jsObjSet key f (val f)) acc →
      kv ∈ acc ∨ ∃ s, s ∈ schema ∧ kv = (s, val s)
  | [], _, kv, h => Or.inl h
  | a :: t, acc, kv, h => by
    rw [List.foldl_cons] at h
    rcases mem_foldl_jsObjSet val t _ kv h with h' | ⟨s, hs, hkv⟩
    · rcases mem_jsObjSet h' with h'' | h''
      · exact Or.inl h''
      · exact Or.inr ⟨a, List.mem_cons_self a t, h''⟩
    · exact Or.inr ⟨s, List.mem_cons_of_mem a hs, hkv⟩

theorem buildKeyPairs_lookup (schema : List String)
    (benchItem : List (String × String)) {s : String} (hs : s ∈ schema) :
    (buildKeyPairs schema benchItem).lookup s
      = some ((benchItem.lookup s).getD "-") :=
  foldl_jsObjSet_lookup (fun f => (benchItem.lookup f).getD "-") schema [] s
    (Or.inl hs)

theorem mem_buildKeyPairs {schema : List String}
    {benchItem : List (String × String)} {kv : String × String}
    (h : kv ∈ buildKeyPairs schema benchItem) :
    kv.1 ∈ schema ∧ kv.2 = (benchItem.lookup kv.1).getD "-" := by
  rcases mem_foldl_jsObjSet (fun f => (benchItem.lookup f).getD "-")
      schema [] kv h with h' | ⟨s, hs, hkv⟩
  · exact absurd h' (List.not_mem_nil kv)
  · subst hkv
    exact ⟨hs, rfl⟩

theorem foldl_jsObjSet_congr (val1 val2 : String → String) :
    ∀ (schema : List String) (acc : List (String × String)),
      (∀ s ∈ schema, val1 s = val2 s) →
      schema.foldl (fun key f => jsObjSet key f (val1 f)) acc
        = schema.foldl (fun key f => jsObjSet key f (val2 f)) acc
  | [], _, _ => rfl
  | a :: t, acc, h => by
    rw [List.foldl_cons, List.foldl_cons, h a (List.mem_cons_self a t)]
    exact foldl_jsObjSet_congr val1 val2 t _
      fun s hs => h s (List.mem_cons_of_mem a hs)

theorem buildKeyPairs_congr {schema : List String}
    {R1 R2 : List (String × String)}
    (h : ∀ s ∈ schema, (R1.lookup s).getD "-" = (R2.lookup s).getD "-") :
    buildKeyPairs schema R1 = buildKeyPairs schema R2 :=
  foldl_jsObjSet_congr (fun f => (R1.lookup f).getD "-")
    (fun f => (R2.lookup f).getD "-") schema [] h

theorem printable_no_quote {s : String} (h : printable s = true) :
    ∀ c ∈ s.data, ¬ c = '"' := by
  intro c hc heq
  unfold printable at h
  rw [List.all_eq_true] at h
  have hcc := h c hc
  rw [heq] at hcc
  simp at hcc

theorem stringData_mk (l : List Char) : (String.mk l).data = l := rfl

theorem spanQuote_append :
    ∀ (a r : List Char), (∀ c ∈ a, ¬ c = '"') →
      spanQuote (a ++ '"' :: r) = some (a, r)
  | [], r, _ => by simp [spanQuote]
  | c :: a, r, h => by
    have hc : ¬ c = '"' := h c (List.mem_cons_self c a)
    have ih := spanQuote_append a r fun x hx => h x (List.mem_cons_of_mem c hx)
    simp [spanQuote, hc, ih]

theorem parseMembers_membersChars :
    ∀ (l : List (String × String)) (fuel : Nat),
      (∀ kv ∈ l, printable kv.1 = true ∧ printable kv.2 = true) →
      l ≠ [] → l.length ≤ fuel →
      parseMembers fuel (membersChars l) = some l
  | [], _, _, hne, _ => absurd rfl hne
  | kv :: t, 0, _, _, hlen => by simp at hlen
  | [kv], fuel + 1, hp, _, _ => by
    have hq1 := printable_no_quote (hp kv (List.mem_cons_self kv [])).1
    have hq2 := printable_no_quote (hp kv (List.mem_cons_self kv [])).2
    simp only [membersChars, memberChars, List.cons_append, List.append_assoc,
      List.singleton_append, List.nil_append]
    simp only [parseMembers]
    rw [spanQuote_append kv.1.data (':' :: '"' :: (kv.2.data ++ '"' :: [rbrace])) hq1]
    simp only []
    rw [spanQuote_append kv.2.data [rbrace] hq2]
    simp
  | kv :: r :: t, fuel + 1, hp, _, hlen => by
    have hq1 := printable_no_quote (hp kv (List.mem_cons_self kv (r :: t))).1
    have hq2 := printable_no_quote (hp kv (List.mem_cons_self kv (r :: t))).2
    have hlen' : (r :: t).length ≤ fuel := by
      simp only [List.length_cons] at hlen ⊢
      omega
    have ih := parseMembers_membersChars (r :: t) fuel
      (fun x hx => hp x (List.mem_cons_of_mem kv hx)) (by simp) hlen'
    simp only [membersChars, memberChars, List.cons_append, List.append_assoc,
      List.singleton_append, List.nil_append]
    simp only [parseMembers]
    rw [spanQuote_append kv.1.data
      (':' :: '"' :: (kv.2.data ++ '"' :: ',' :: membersChars (r :: t))) hq1]
    simp only []
    rw [spanQuote_append kv.2.data (',' :: membersChars (r :: t)) hq2]
    have hne : ¬ (',' :: membersChars (r :: t)) = [rbrace] := by
      intro hcontra
      have : ',' = rbrace := by
        have := congrArg List.head? hcontra
        simpa using this
      exact absurd this (by decide)
    simp only [if_neg hne]
    rw [ih]

theorem length_le_membersChars :
    ∀ l : List (String × String), l.length ≤ (membersChars l).length
  | [] => by simp [membersChars]
  | [kv] => by simp [membersChars, memberChars]
  | kv :: r :: t => by
    have ih := length_le_membersChars (r :: t)
    simp only [membersChars, memberChars, List.length_cons, List.length_append,
      List.cons_append, List.append_assoc] at ih ⊢
    simp at ih ⊢
    omega

theorem membersChars_head :
    ∀ (kv : String × String) (t : List (String × String)),
      ∃ rest, membersChars (kv :: t) = '"' :: rest
  | _, [] => ⟨_, rfl⟩
  | _, _ :: _ => ⟨_, rfl⟩

theorem jsonParseObj_stringify :
    ∀ l : List (String × String),
      (∀ kv ∈ l, printable kv.1 = true ∧ printable kv.2 = true) →
      jsonParseObj (jsonStringifyObj l) = some l
  | [], _ => rfl
  | kv :: t, hp => by
    unfold jsonStringifyObj jsonParseObj
    rw [stringData_mk]
    obtain ⟨rest, hrest⟩ := membersChars_head kv t
    have hne : ¬ membersChars (kv :: t) = [rbrace] := by
      rw [hrest]
      intro hcontra
      have : '"' = rbrace := by
        have := congrArg List.head? hcontra
        simpa using this
      exact absurd this (by decide)
    simp only [if_pos rfl, if_neg hne]
    exact parseMembers_membersChars (kv :: t) ((membersChars (kv :: t)).length + 1)
      hp (by simp) (Nat.le_succ_of_le (length_le_membersChars (kv :: t)))

theorem buildKeyPairs_printable {F : List String} {R : List (String × String)}
    (hF : ∀ s ∈ F, printable s = true)
    (hR : ∀ s ∈ F, printable ((R.lookup s).getD "-") = true) :
    ∀ kv ∈ buildKeyPairs F R, printable kv.1 = true ∧ printable kv.2 = true := by
  intro kv hkv
  obtain ⟨hk, hv⟩ := mem_buildKeyPairs hkv
  exact ⟨hF kv.1 hk, hv ▸ hR kv.1 hk⟩

theorem foldl_fill_noop :
    ∀ (schema : List String) (key : List (String × String)),
      (∀ s ∈ schema, (key.lookup s).isSome = true) →
      schema.foldl
        (fun key s => if (key.lookup s).isSome then key else jsObjSet key s "-")
        key = key
  | [], _, _ => rfl
  | a :: t, key, h => by
    rw [List.foldl_cons, if_pos (h a (List.mem_cons_self a t))]
    exact foldl_fill_noop t key fun s hs => h s (List.mem_cons_of_mem a hs)

/-- C2 (Key Codec injectivity): over printable field names and values,
`buildKey` yields the same key string for two records exactly when they
agree on every schema field, a missing field counting as the sentinel
`"-"`. -/
theorem c2_buildKey_injective (F : List String) (R1 R2 : List (String × String))
    (hF : ∀ s ∈ F, printable s = true)
    (h1 : ∀ s ∈ F, printable ((R1.lookup s).getD "-") = true)
    (h2 : ∀ s ∈ F, printable ((R2.lookup s).getD "-") = true) :
    buildKey R1 F = buildKey R2 F ↔
      ∀ s ∈ F, (R1.lookup s).getD "-" = (R2.lookup s).getD "-" := by
  constructor
  · intro h s hs
    have e1 := jsonParseObj_stringify (buildKeyPairs F R1)
      (buildKeyPairs_printable hF h1)
    have e2 := jsonParseObj_stringify (buildKeyPairs F R2)
      (buildKeyPairs_printable hF h2)
    unfold buildKey at h
    rw [h, e2] at e1
    have epairs : buildKeyPairs F R2 = buildKeyPairs F R1 := Option.some.inj e1
    have l1 := buildKeyPairs_lookup F R1 hs
    have l2 := buildKeyPairs_lookup F R2 hs
    rw [← epairs, l2] at l1
    exact (Option.some.inj l1).symm
  · intro h
    unfold buildKey
    rw [buildKeyPairs_congr h]

/-- Witness for C2: schema `["name", "os"]`, one record with `os` present
and one with `os` missing; the hypotheses hold and so does the
equivalence. -/
theorem c2_buildKey_injective_witness :
    ((∀ s ∈ ["name", "os"], printable s = true) ∧
     (∀ s ∈ ["name", "os"],
       printable (([("name", "sha256"), ("os", "linux")].lookup s).getD "-")
         = true) ∧
     (∀ s ∈ ["name", "os"],
       printable (([("name", "sha256")].lookup s).getD "-") = true)) ∧
    (buildKey [("name", "sha256"), ("os", "linux")] ["name", "os"]
        = buildKey [("name", "sha256")] ["name", "os"] ↔
      ∀ s ∈ ["name", "os"],
        ([("name", "sha256"), ("os", "linux")].lookup s).getD "-"
          = ([("name", "sha256")].lookup s).getD "-") :=
  ⟨⟨by decide, by decide, by decide⟩,
    c2_buildKey_injective ["name", "os"] [("name", "sha256"), ("os", "linux")]
      [("name", "sha256")] (by decide) (by decide) (by decide)⟩

theorem parseKey_buildKey_eq (F : List String) (R : List (String × String))
    (hF : ∀ s ∈ F, printable s = true)
    (hR : ∀ s ∈ F, printable ((R.lookup s).getD "-") = true) :
    parseKey (buildKey R F) F = some (buildKeyPairs F R) := by
  have hparse := jsonParseObj_stringify (buildKeyPairs F R)
    (buildKeyPairs_printable hF hR)
  unfold parseKey buildKey
  rw [hparse]
  show some (F.foldl
      (fun key s => if (key.lookup s).isSome then key else jsObjSet key s "-")
      (buildKeyPairs F R)) = some (buildKeyPairs F R)
  congr 1
  apply foldl_fill_noop
  intro s hs
  rw [buildKeyPairs_lookup F R hs]
  rfl

/-- C3 (Key Codec round-trip): `parseKey(buildKey(R, F), F)` succeeds and
reconstructs exactly the field-to-value mapping over `F`, every field
missing from `R` being mapped to the sentinel string `"-"`. -/
theorem c3_parseKey_buildKey_roundtrip (F : List String)
    (R : List (String × String))
    (hF : ∀ s ∈ F, printable s = true)
    (hR : ∀ s ∈ F, printable ((R.lookup s).getD "-") = true) :
    parseKey (buildKey R F) F = some (buildKeyPairs F R) ∧
    ∀ s ∈ F, (buildKeyPairs F R).lookup s = some ((R.lookup s).getD "-") :=
  ⟨parseKey_buildKey_eq F R hF hR, fun _s hs => buildKeyPairs_lookup F R hs⟩

/-- Witness for C3: schema `["name", "os"]` and a record missing `os`;
the parsed key maps `name` to the record's value and `os` to `"-"`. -/
theorem c3_parseKey_buildKey_roundtrip_witness :
    ((∀ s ∈ ["name", "os"], printable s = true) ∧
     (∀ s ∈ ["name", "os"],
       printable (([("name", "sha256")].lookup s).getD "-") = true)) ∧
    (parseKey (buildKey [("name", "sha256")] ["name", "os"]) ["name", "os"]
        = some (buildKeyPairs ["name", "os"] [("name", "sha256")]) ∧
      ∀ s ∈ ["name", "os"],
        (buildKeyPairs ["name", "os"] [("name", "sha256")]).lookup s
          = some (([("name", "sha256")].lookup s).getD "-")) :=
  ⟨⟨by decide, by decide⟩,
    c3_parseKey_buildKey_roundtrip ["name", "os"] [("name", "sha256")]
      (by decide) (by decide)⟩

/-- C4 (display-unit selection): writing `m` for the maximum of all
normalized values (the hypothesis says `Math.max` over all traces equals
`m`), the display unit and the one divisor applied to every value are:
seconds (`"s/iter"`) and 1e9 when `m > 1e9`, else milliseconds and 1e6
when `m > 1e6`, else microseconds and 1e3 when `m > 1e3`, else
nanoseconds and 1. -/
theorem c4_adjustDataAndUnit_spec (traces : List Trace) (m : ℚ)
    (hmax : (traces.map fun trace => jsMathMax trace.dataNs).foldl max
        (⊥ : WithBot ℚ) = (m : WithBot ℚ)) :
    ((1000000000 : ℚ) < m →
      adjustDataAndUnit traces = ("s/iter", traces.map fun trace =>
        { trace with y := trace.dataNs.map fun d => d / 1000000000 })) ∧
    ((1000000 : ℚ) < m → m ≤ 1000000000 →
      adjustDataAndUnit traces = ("ms/iter", traces.map fun trace =>
        { trace with y := trace.dataNs.map fun d => d / 1000000 })) ∧
    ((1000 : ℚ) < m → m ≤ 1000000 →
      adjustDataAndUnit traces = ("μs/iter", traces.map fun trace =>
        { trace with y := trace.dataNs.map fun d => d / 1000 })) ∧
    (m ≤ 1000 →
      adjustDataAndUnit traces = ("ns/iter", traces.map fun trace =>
        { trace with y := trace.dataNs.map fun d => d / 1 })) := by
  have key : ∀ q : ℚ,
      (((q : ℚ) : WithBot ℚ) < (traces.map fun trace =>
        jsMathMax trace.dataNs).foldl max (⊥ : WithBot ℚ)) ↔ q < m := by
    intro q
    rw [hmax]
    exact WithBot.coe_lt_coe
  refine ⟨fun h => ?_, fun h hle => ?_, fun h hle => ?_, fun hle => ?_⟩
  · simp only [adjustDataAndUnit]
    rw [if_pos ((key 1000000000).mpr h)]
  · simp only [adjustDataAndUnit]
    rw [if_neg (by rw [key]; exact not_lt.mpr hle),
      if_pos ((key 1000000).mpr h)]
  · simp only [adjustDataAndUnit]
    rw [if_neg (by rw [key]; exact not_lt.mpr (hle.trans (by norm_num))),
      if_neg (by rw [key]; exact not_lt.mpr hle),
      if_pos ((key 1000).mpr h)]
  · simp only [adjustDataAndUnit]
    rw [if_neg (by rw [key]; exact not_lt.mpr (hle.trans (by norm_num))),
      if_neg (by rw [key]; exact not_lt.mpr (hle.trans (by norm_num))),
      if_neg (by rw [key]; exact not_lt.mpr hle)]

/-- Witness for C4, at the claim's concrete input: one trace with
normalized values `[1200000000, 500]` ns.  The maximum is `1.2e9 > 1e9`,
so the display unit is seconds with scale factor 1e9 and the scaled
values are exactly `[1.2, 0.0000005]` (`[6/5, 1/2000000]` as
rationals). -/
theorem c4_adjustDataAndUnit_spec_witness :
    (([c4Trace].map fun trace => jsMathMax trace.dataNs).foldl max
        (⊥ : WithBot ℚ) = ((1200000000 : ℚ) : WithBot ℚ)) ∧
    (1000000000 : ℚ) < 1200000000 ∧
    adjustDataAndUnit [c4Trace]
      = ("s/iter", [{ c4Trace with y := [6 / 5, 1 / 2000000] }]) := by
  have hmax : ([c4Trace].map fun trace => jsMathMax trace.dataNs).foldl max
      (⊥ : WithBot ℚ) = ((1200000000 : ℚ) : WithBot ℚ) := by decide
  refine ⟨hmax, by norm_num, ?_⟩
  have h := (c4_adjustDataAndUnit_spec [c4Trace] 1200000000 hmax).1
    (by norm_num)
  rw [h]
  simp [c4Trace]
  norm_num

/-- C5: at a trace whose metadata carries the missing-field sentinel
`"-"` for the `name` field (exactly what `parseKey` produces for a
record missing that field), `getLegendName` *includes* the sentinel in
the legend name instead of omitting it: the `value !== undefined` filter
never fires because `parseKey` fills missing fields with the string
`"-"`, not `undefined`. -/
theorem c5_legend_includes_sentinel :
    getLegendName
        { metadata := [("name", "-"), ("os", "linux"), ("unit", "ns/iter")],
          x := [], dataNs := [], dataset := [], y := [], name := "",
          text := [] }
        ["os"] ["name", "os"] = "-" := by rfl

theorem getNanoseconds_head (v : ℚ) (u : String) (c : Char)
    (h : u.data.head? = some c) :
    getNanoseconds v u =
      if c = 'μ' ∨ c = 'µ' ∨ c = 'u' then Except.ok (v * 1000)
      else if c = 'n' then Except.ok v
      else if c = 'm' then Except.ok (v * 1000000)
      else if c = 's' then Except.ok (v * 1000000000)
      else Except.error ("undefined unit: " ++ toString c) := by
  unfold getNanoseconds
  rw [h]

/-- C6 (unit conversion totality and failure): conversion succeeds
exactly when the unit's first character is one of `n`, `u`, `µ`, `μ`,
`m`, `s` — multiplying by 1, 1e3, 1e3, 1e3, 1e6, 1e9 respectively — and
any other prefix (including the absent prefix of an empty unit string)
produces an error. -/
theorem c6_getNanoseconds_spec (v : ℚ) (u : String) :
    ((getNanoseconds v u).isOk = true ↔
      ∃ c, u.data.head? = some c ∧ c ∈ ['n', 'u', 'µ', 'μ', 'm', 's']) ∧
    (∀ c, u.data.head? = some c →
      (c = 'n' → getNanoseconds v u = Except.ok v) ∧
      ((c = 'u' ∨ c = 'µ' ∨ c = 'μ') →
        getNanoseconds v u = Except.ok (v * 1000)) ∧
      (c = 'm' → getNanoseconds v u = Except.ok (v * 1000000)) ∧
      (c = 's' → getNanoseconds v u = Except.ok (v * 1000000000)) ∧
      (c ∉ ['n', 'u', 'µ', 'μ', 'm', 's'] →
        ∃ e, getNanoseconds v u = Except.error e)) ∧
    (u.data.head? = none → ∃ e, getNanoseconds v u = Except.error e) := by
  refine ⟨?_, ?_, ?_⟩
  · constructor
    · intro hok
      cases h : u.data.head? with
      | none =>
        unfold getNanoseconds at hok
        rw [h] at hok
        simp [Except.isOk, Except.toBool] at hok
      | some c =>
        rw [getNanoseconds_head v u c h] at hok
        by_cases h1 : c = 'μ' ∨ c = 'µ' ∨ c = 'u'
        · rcases h1 with rfl | rfl | rfl
          · exact ⟨'μ', rfl, by decide⟩
          · exact ⟨'µ', rfl, by decide⟩
          · exact ⟨'u', rfl, by decide⟩
        · rw [if_neg h1] at hok
          by_cases h2 : c = 'n'
          · subst h2; exact ⟨'n', rfl, by decide⟩
          · rw [if_neg h2] at hok
            by_cases h3 : c = 'm'
            · subst h3; exact ⟨'m', rfl, by decide⟩
            · rw [if_neg h3] at hok
              by_cases h4 : c = 's'
              · subst h4; exact ⟨'s', rfl, by decide⟩
              · rw [if_neg h4] at hok
                simp [Except.isOk, Except.toBool] at hok
    · rintro ⟨c, h, hmem⟩
      have hrw := getNanoseconds_head v u c h
      simp only [List.mem_cons, List.not_mem_nil, or_false] at hmem
      rcases hmem with rfl | rfl | rfl | rfl | rfl | rfl <;>
        rw [hrw] <;> simp [Except.isOk, Except.toBool]
  · intro c h
    have hrw := getNanoseconds_head v u c h
    refine ⟨fun hc => ?_, fun hc => ?_, fun hc => ?_, fun hc => ?_,
      fun hc => ?_⟩
    · subst hc; rw [hrw]; simp
    · rcases hc with rfl | rfl | rfl <;> rw [hrw] <;> simp
    · subst hc; rw [hrw]; simp
    · subst hc; rw [hrw]; simp
    · have h1 : ¬ (c = 'μ' ∨ c = 'µ' ∨ c = 'u') := by
        rintro (rfl | rfl | rfl) <;> exact hc (by decide)
      have h2 : ¬ c = 'n' := by rintro rfl; exact hc (by decide)
      have h3 : ¬ c = 'm' := by rintro rfl; exact hc (by decide)
      have h4 : ¬ c = 's' := by rintro rfl; exact hc (by decide)
      rw [hrw, if_neg h1, if_neg h2, if_neg h3, if_neg h4]
      exact ⟨_, rfl⟩
  · intro h
    unfold getNanoseconds
    rw [h]
    exact ⟨_, rfl⟩

/-- Witness for C6 at the concrete unit strings `"ms"` (recognized) and
a couple of concrete conversions, obtained by instantiating the claim's
theorem. -/
theorem c6_getNanoseconds_spec_witness :
    ((getNanoseconds 7 "ms").isOk = true ↔
      ∃ c, "ms".data.head? = some c ∧ c ∈ ['n', 'u', 'µ', 'μ', 'm', 's']) ∧
    (∀ c, "ms".data.head? = some c →
      (c = 'n' → getNanoseconds 7 "ms" = Except.ok 7) ∧
      ((c = 'u' ∨ c = 'µ' ∨ c = 'μ') →
        getNanoseconds 7 "ms" = Except.ok (7 * 1000)) ∧
      (c = 'm' → getNanoseconds 7 "ms" = Except.ok (7 * 1000000)) ∧
      (c = 's' → getNanoseconds 7 "ms" = Except.ok (7 * 1000000000)) ∧
      (c ∉ ['n', 'u', 'µ', 'μ', 'm', 's'] →
        ∃ e, getNanoseconds 7 "ms" = Except.error e)) ∧
    ("ms".data.head? = none → ∃ e, getNanoseconds 7 "ms" = Except.error e) :=
  c6_getNanoseconds_spec 7 "ms"

theorem containsStr_tail (pre needle : String) :
    containsStr (pre ++ needle) needle :=
  ⟨pre, "", by rw [String.append_empty]⟩

theorem containsStr_empty (hay : String) : containsStr hay "" :=
  ⟨"", hay, rfl⟩

theorem containsStr_appendRight (hay p needle : String)
    (h : containsStr hay needle) : containsStr (hay ++ p) needle := by
  obtain ⟨a, b, rfl⟩ := h
  exact ⟨a, b ++ p, by rw [String.append_assoc, String.append_assoc]⟩

/-- C7 (tooltip contract): every observation's tooltip string, as
attached by `addLegendNameAndTooltip`, is in the trace's `text` array,
and for every legend name the tooltip text contains the name, the
measured value, the unit, the range when present, the commit id, the
commit message and the commit url. -/
theorem c7_tooltip_contract (trace : Trace) (groupBy schema : List String)
    (observation : Observation) (h : observation ∈ trace.dataset) :
    getObservationTooltipText (addLegendNameAndTooltip trace groupBy schema).name
        observation ∈ (addLegendNameAndTooltip trace groupBy schema).text ∧
    ∀ name,
      containsStr (getObservationTooltipText name observation) name ∧
      containsStr (getObservationTooltipText name observation)
        (toString observation.bench.value) ∧
      containsStr (getObservationTooltipText name observation)
        observation.bench.unit ∧
      (∀ r, observation.bench.range = some r →
        containsStr (getObservationTooltipText name observation) r) ∧
      containsStr (getObservationTooltipText name observation)
        observation.commit.id ∧
      containsStr (getObservationTooltipText name observation)
        observation.commit.message ∧
      containsStr (getObservationTooltipText name observation)
        observation.commit.url := by
  constructor
  · simp only [addLegendNameAndTooltip]
    exact List.mem_map_of_mem _ h
  · intro name
    refine ⟨?_, ?_, ?_, ?_, ?_, ?_, ?_⟩
    · simp only [getObservationTooltipText]
      iterate 12 apply containsStr_appendRight
      exact containsStr_tail _ _
    · simp only [getObservationTooltipText]
      iterate 10 apply containsStr_appendRight
      exact containsStr_tail _ _
    · simp only [getObservationTooltipText]
      iterate 8 apply containsStr_appendRight
      exact containsStr_tail _ _
    · intro r hr
      simp only [getObservationTooltipText, hr]
      by_cases hre : r = ""
      · exact hre ▸ containsStr_empty _
      · rw [if_neg hre]
        iterate 6 apply containsStr_appendRight
        exact containsStr_tail _ _
    · simp only [getObservationTooltipText]
      iterate 4 apply containsStr_appendRight
      exact containsStr_tail _ _
    · simp only [getObservationTooltipText]
      iterate 2 apply containsStr_appendRight
      exact containsStr_tail _ _
    · simp only [getObservationTooltipText]
      exact containsStr_tail _ _

/-- Witness for C7 at the concrete trace and observation. -/
theorem c7_tooltip_contract_witness :
    c7Obs ∈ c7Trace.dataset ∧
    (getObservationTooltipText
        (addLegendNameAndTooltip c7Trace ["os"] ["name", "os"]).name c7Obs
        ∈ (addLegendNameAndTooltip c7Trace ["os"] ["name", "os"]).text ∧
      ∀ name,
        containsStr (getObservationTooltipText name c7Obs) name ∧
        containsStr (getObservationTooltipText name c7Obs)
          (toString c7Obs.bench.value) ∧
        containsStr (getObservationTooltipText name c7Obs)
          c7Obs.bench.unit ∧
        (∀ r, c7Obs.bench.range = some r →
          containsStr (getObservationTooltipText name c7Obs) r) ∧
        containsStr (getObservationTooltipText name c7Obs)
          c7Obs.commit.id ∧
        containsStr (getObservationTooltipText name c7Obs)
          c7Obs.commit.message ∧
        containsStr (getObservationTooltipText name c7Obs)
          c7Obs.commit.url) :=
  ⟨List.mem_singleton_self c7Obs,
    c7_tooltip_contract c7Trace ["os"] ["name", "os"] c7Obs
      (List.mem_singleton_self c7Obs)⟩

theorem lookup_mapGrouped_self {α : Type} :
    ∀ (acc : List (String × List α)) (k : String) (x : α) (g : List α),
      acc.lookup k = some g →
      (acc.map fun kv => if kv.1 = k then (kv.1, kv.2 ++ [x]) else kv).lookup k
        = some (g ++ [x])
  | [], _, _, _, h => by simp at h
  | (a, b) :: t, k, x, g, h => by
    by_cases hak : a = k
    · subst hak
      rw [List.lookup_cons, beq_self_eq_true] at h
      obtain rfl : b = g := Option.some.inj h
      simp [List.lookup_cons]
    · rw [List.lookup_cons, beq_false_of_ne fun he => hak he.symm] at h
      have := lookup_mapGrouped_self t k x g h
      simp only [List.map_cons, if_neg hak, List.lookup_cons,
        beq_false_of_ne fun he => hak he.symm]
      exact this

theorem lookup_mapGrouped_ne {α : Type} :
    ∀ (acc : List (String × List α)) (k : String) (x : α) (k' : String),
      ¬ k' = k →
      (acc.map fun kv => if kv.1 = k then (kv.1, kv.2 ++ [x]) else kv).lookup k'
        = acc.lookup k'
  | [], _, _, _, _ => by simp
  | (a, b) :: t, k, x, k', h => by
    have ih := lookup_mapGrouped_ne t k x k' h
    by_cases hak : a = k
    · subst hak
      simp only [List.map_cons, if_pos rfl, List.lookup_cons,
        beq_false_of_ne h]
      simpa [List.lookup_cons, beq_false_of_ne h] using ih
    · by_cases hk' : k' = a
      · subst hk'
        simp [List.lookup_cons, if_neg hak]
      · simp only [List.map_cons, if_neg hak, List.lookup_cons,
          beq_false_of_ne hk']
        exact ih

theorem lookup_insertGrouped {α : Type} (acc : List (String × List α))
    (k : String) (x : α) (k' : String) :
    (insertGrouped acc k x).lookup k' =
      if k' = k then some ((acc.lookup k).getD [] ++ [x])
      else acc.lookup k' := by
  unfold insertGrouped
  by_cases hs : (acc.lookup k).isSome = true
  · rw [if_pos hs]
    obtain ⟨g, hg⟩ := Option.isSome_iff_exists.mp hs
    by_cases hk' : k' = k
    · rw [if_pos hk', hk', hg, lookup_mapGrouped_self acc k x g hg]
      rfl
    · rw [if_neg hk', lookup_mapGrouped_ne acc k x k' hk']
  · rw [if_neg hs]
    have hnone : acc.lookup k = none := by
      cases h : acc.lookup k with
      | none => rfl
      | some w => rw [h] at hs; simp at hs
    by_cases hk' : k' = k
    · rw [if_pos hk', hk', hnone, lookup_append_single_self acc k [x] hnone]
      rfl
    · rw [if_neg hk', lookup_append_single_ne acc k [x] k' hk']

theorem foldl_insertGrouped_lookup_some {α : Type} (f : α → String) :
    ∀ (l : List α) (acc : List (String × List α)) (k : String)
      (g : List α), acc.lookup k = some g →
      (l.foldl (fun a x => insertGrouped a (f x) x) acc).lookup k
        = some (g ++ l.filter fun x => f x == k)
  | [], acc, k, g, h => by simpa using h
  | x :: t, acc, k, g, h => by
    rw [List.foldl_cons]
    by_cases hx : f x = k
    · have hl : (insertGrouped acc (f x) x).lookup k = some (g ++ [x]) := by
        rw [lookup_insertGrouped, if_pos hx.symm, hx, h]
        rfl
      have := foldl_insertGrouped_lookup_some f t _ k (g ++ [x]) hl
      rw [this, List.filter_cons]
      simp [hx]
    · have hl : (insertGrouped acc (f x) x).lookup k = some g := by
        rw [lookup_insertGrouped, if_neg fun he => hx he.symm]
        exact h
      have := foldl_insertGrouped_lookup_some f t _ k g hl
      rw [this, List.filter_cons]
      simp [hx]

theorem foldl_insertGrouped_lookup_none {α : Type} (f : α → String) :
    ∀ (l : List α) (acc : List (String × List α)) (k : String),
      acc.lookup k = none →
      (l.foldl (fun a x => insertGrouped a (f x) x) acc).lookup k
        = if (l.filter fun x => f x == k).isEmpty then none
          else some (l.filter fun x => f x == k)
  | [], acc, k, h => by simpa using h
  | x :: t, acc, k, h => by
    rw [List.foldl_cons]
    by_cases hx : f x = k
    · have hl : (insertGrouped acc (f x) x).lookup k = some [x] := by
        rw [lookup_insertGrouped, if_pos hx.symm, hx, h]
        rfl
      have := foldl_insertGrouped_lookup_some f t _ k [x] hl
      rw [this, List.filter_cons]
      simp [hx]
    · have hl : (insertGrouped acc (f x) x).lookup k = none := by
        rw [lookup_insertGrouped, if_neg fun he => hx he.symm]
        exact h
      have := foldl_insertGrouped_lookup_none f t _ k hl
      rw [this, List.filter_cons]
      simp [hx]

theorem groupByKey_lookup {α : Type} (f : α → String) (l : List α)
    (k : String) :
    (groupByKey f l).lookup k =
      if (l.filter fun x => f x == k).isEmpty then none
      else some (l.filter fun x => f x == k) :=
  foldl_insertGrouped_lookup_none f l [] k rfl

theorem lookup_eq_none_not_mem {β : Type} :
    ∀ (acc : List (String × β)) (k : String), acc.lookup k = none →
      k ∉ acc.map Prod.fst
  | [], _, _ => by simp
  | (a, b) :: t, k, h => by
    have hak : ¬ k = a := by
      intro he
      simp [List.lookup_cons, he] at h
    rw [List.lookup_cons, beq_false_of_ne hak] at h
    have := lookup_eq_none_not_mem t k h
    simp only [List.map_cons, List.mem_cons]
    rintro (he | he)
    · exact hak he
    · exact this he

theorem mem_keys_of_lookup_isSome {β : Type} :
    ∀ (acc : List (String × β)) (k : String), (acc.lookup k).isSome = true →
      k ∈ acc.map Prod.fst
  | [], _, h => by simp at h
  | (a, b) :: t, k, h => by
    by_cases hak : k = a
    · simp [hak]
    · rw [List.lookup_cons, beq_false_of_ne hak] at h
      have := mem_keys_of_lookup_isSome t k h
      simp only [List.map_cons, List.mem_cons]
      exact Or.inr this

theorem mem_lookup_of_nodupKeys {β : Type} :
    ∀ (acc : List (String × β)) (kv : String × β),
      (acc.map Prod.fst).Nodup → kv ∈ acc → acc.lookup kv.1 = some kv.2
  | [], kv, _, h => absurd h (List.not_mem_nil kv)
  | (a, b) :: t, kv, hnd, h => by
    rcases List.mem_cons.mp h with rfl | hmem
    · simp [List.lookup_cons]
    · have hndc : (a :: t.map Prod.fst).Nodup := by simpa using hnd
      have hnotin := (List.nodup_cons.mp hndc).1
      have hndt : (t.map Prod.fst).Nodup := (List.nodup_cons.mp hndc).2
      have hka : ¬ kv.1 = a := by
        intro he
        exact hnotin (he ▸ List.mem_map_of_mem Prod.fst hmem)
      rw [List.lookup_cons, beq_false_of_ne hka]
      exact mem_lookup_of_nodupKeys t kv hndt hmem

theorem keys_mapGrouped {α : Type} (acc : List (String × List α)) (k : String)
    (x : α) :
    (acc.map fun kv => if kv.1 = k then (kv.1, kv.2 ++ [x]) else kv).map
        Prod.fst = acc.map Prod.fst := by
  induction acc with
  | nil => rfl
  | cons kv t ih =>
    simp only [List.map_cons]
    by_cases hk : kv.1 = k
    · rw [if_pos hk]
      exact congrArg _ ih
    · rw [if_neg hk]
      exact congrArg _ ih

theorem nodupKeys_insertGrouped {α : Type} (acc : List (String × List α))
    (k : String) (x : α) (h : (acc.map Prod.fst).Nodup) :
    ((insertGrouped acc k x).map Prod.fst).Nodup := by
  unfold insertGrouped
  by_cases hs : (acc.lookup k).isSome = true
  · rw [if_pos hs, keys_mapGrouped]
    exact h
  · rw [if_neg hs]
    have hnone : acc.lookup k = none := by
      cases hc : acc.lookup k with
      | none => rfl
      | some w => rw [hc] at hs; simp at hs
    have hnot := lookup_eq_none_not_mem acc k hnone
    simp only [List.map_append, List.map_cons, List.map_nil]
    rw [List.nodup_append]
    refine ⟨h, List.nodup_singleton k, ?_⟩
    intro a ha hak
    rw [List.mem_singleton] at hak
    subst hak
    exact hnot ha

theorem groupByKey_nodupKeys {α : Type} (f : α → String) (l : List α) :
    ((groupByKey f l).map Prod.fst).Nodup := by
  unfold groupByKey
  suffices h : ∀ (l : List α) (acc : List (String × List α)),
      (acc.map Prod.fst).Nodup →
      ((l.foldl (fun a x => insertGrouped a (f x) x) acc).map Prod.fst).Nodup by
    exact h l [] (by simp)
  intro l
  induction l with
  | nil => intro acc h; exact h
  | cons x t ih =>
    intro acc h
    rw [List.foldl_cons]
    exact ih _ (nodupKeys_insertGrouped acc (f x) x h)

theorem mapM_ok_of_forall {ε α β : Type} (f : α → Except ε β) :
    ∀ l : List α, (∀ x ∈ l, ∃ y, f x = Except.ok y) →
      ∃ ys, l.mapM f = Except.ok ys ∧
        List.Forall₂ (fun x y => f x = Except.ok y) l ys
  | [], _ => ⟨[], rfl, List.Forall₂.nil⟩
  | x :: t, h => by
    obtain ⟨y, hy⟩ := h x (List.mem_cons_self x t)
    obtain ⟨ys, hys, hall⟩ := mapM_ok_of_forall f t
      fun z hz => h z (List.mem_cons_of_mem x hz)
    refine ⟨y :: ys, ?_, List.Forall₂.cons hy hall⟩
    rw [List.mapM_cons, hy, hys]
    rfl

theorem traceOfGroup_ok {schema : List String}
    {kd : String × List Observation} {tr : Trace}
    (h : traceOfGroup schema kd = Except.ok tr) :
    tr.dataset = kd.2 ∧ tr.x = kd.2.map (·.date) := by
  unfold traceOfGroup at h
  cases hpk : parseKey kd.1 schema with
  | none => rw [hpk] at h; cases h
  | some m =>
    rw [hpk] at h
    cases hm : kd.2.mapM fun d => getNanoseconds d.bench.value d.bench.unit with
    | error e => rw [hm] at h; cases h
    | ok dns =>
      rw [hm] at h
      cases h
      exact ⟨rfl, rfl⟩

instance {ε α : Type} [DecidableEq ε] [DecidableEq α] :
    DecidableEq (Except ε α) := fun
  | .ok a, .ok b =>
    decidable_of_iff (a = b) ⟨congrArg Except.ok, Except.ok.inj⟩
  | .ok _, .error _ => isFalse fun hc => Except.noConfusion hc
  | .error _, .ok _ => isFalse fun hc => Except.noConfusion hc
  | .error e, .error f =>
    decidable_of_iff (e = f) ⟨congrArg Except.error, Except.error.inj⟩

theorem except_isOk_exists {ε β : Type} {e : Except ε β}
    (h : e.isOk = true) : ∃ y, e = Except.ok y := by
  cases e with
  | ok y => exact ⟨y, rfl⟩
  | error e => simp [Except.isOk, Except.toBool] at h

/-- C8 (Trace Builder): under recognizable units and printable schema
fields/values, `separateAllTraces` succeeds with exactly one trace per
distinct schema key — the grouped keys are pairwise distinct and every
observation's key occurs — and each trace's observation sequence is the
subsequence of the flattened input with that key, in input order (no
sorting). -/
theorem c8_separateAllTraces_spec (commits : List Benchmark)
    (schema : List String)
    (hF : ∀ s ∈ schema, printable s = true)
    (hvals : ∀ c ∈ commits, ∀ b ∈ c.benches, ∀ s ∈ schema,
      printable ((b.fields.lookup s).getD "-") = true)
    (hunits : ∀ c ∈ commits, ∀ b ∈ c.benches,
      (getNanoseconds b.value b.unit).isOk = true) :
    ∃ traces, separateAllTraces commits schema = Except.ok traces ∧
      List.Forall₂
        (fun (kg : String × List Observation) (tr : Trace) =>
          tr.dataset = kg.2 ∧ tr.x = kg.2.map (·.date))
        (groupByKey (fun d => buildKey d.bench.fields schema)
          (flattenObservations commits))
        traces ∧
      ((groupByKey (fun d => buildKey d.bench.fields schema)
          (flattenObservations commits)).map Prod.fst).Nodup ∧
      (∀ kg ∈ groupByKey (fun d => buildKey d.bench.fields schema)
          (flattenObservations commits),
        kg.2 = (flattenObservations commits).filter
          fun d => buildKey d.bench.fields schema == kg.1) ∧
      (∀ d ∈ flattenObservations commits,
        buildKey d.bench.fields schema
          ∈ (groupByKey (fun d => buildKey d.bench.fields schema)
              (flattenObservations commits)).map Prod.fst) := by
  have hdataMem : ∀ d ∈ flattenObservations commits,
      ∃ c, c ∈ commits ∧ ∃ b, b ∈ c.benches ∧
        d = Observation.mk c.commit c.date b := by
    intro d hd
    unfold flattenObservations at hd
    rw [List.mem_flatten] at hd
    obtain ⟨l, hl, hdl⟩ := hd
    rw [List.mem_map] at hl
    obtain ⟨c, hc, rfl⟩ := hl
    rw [List.mem_map] at hdl
    obtain ⟨b, hb, rfl⟩ := hdl
    exact ⟨c, hc, b, hb, rfl⟩
  set keyf : Observation → String :=
    fun d => buildKey d.bench.fields schema with hkeyf
  set data := flattenObservations commits with hdata
  set grouped := groupByKey keyf data with hgroupedDef
  have hnodup : (grouped.map Prod.fst).Nodup := groupByKey_nodupKeys keyf data
  have hmemg : ∀ kg ∈ grouped,
      kg.2 = data.filter (fun d => keyf d == kg.1) ∧ kg.2 ≠ [] := by
    intro kg hkg
    have hl := mem_lookup_of_nodupKeys grouped kg hnodup hkg
    rw [hgroupedDef, groupByKey_lookup] at hl
    by_cases hemp : (data.filter fun x => keyf x == kg.1).isEmpty = true
    · rw [if_pos hemp] at hl
      exact absurd hl (by simp)
    · rw [if_neg hemp] at hl
      have heq := Option.some.inj hl
      refine ⟨heq.symm, fun hnil => hemp ?_⟩
      rw [heq, hnil]
      rfl
  have hcover : ∀ d ∈ data, keyf d ∈ grouped.map Prod.fst := by
    intro d hd
    apply mem_keys_of_lookup_isSome
    rw [hgroupedDef, groupByKey_lookup]
    have hmemf : d ∈ data.filter fun x => keyf x == keyf d :=
      List.mem_filter.mpr ⟨hd, by simp⟩
    have hne : ¬ (data.filter fun x => keyf x == keyf d).isEmpty = true := by
      intro hemp
      rcases hf : (data.filter fun x => keyf x == keyf d) with _ | ⟨y, ys⟩
      · rw [hf] at hmemf
        exact absurd hmemf (List.not_mem_nil d)
      · rw [hf] at hemp
        simp [List.isEmpty] at hemp
    rw [if_neg hne]
    rfl
  have hbody : ∀ kg ∈ grouped, ∃ tr, traceOfGroup schema kg = Except.ok tr := by
    intro kg hkg
    obtain ⟨hfilter, hne⟩ := hmemg kg hkg
    obtain ⟨d, hd⟩ := List.exists_mem_of_ne_nil kg.2 hne
    have hdf : d ∈ data ∧ (keyf d == kg.1) = true := by
      rw [hfilter] at hd
      exact List.mem_filter.mp hd
    have hdkey : keyf d = kg.1 := by simpa using hdf.2
    obtain ⟨c, hc, b, hb, rfl⟩ := hdataMem d hdf.1
    have hkey : kg.1 = buildKey b.fields schema := hdkey.symm
    have hpk := parseKey_buildKey_eq schema b.fields hF
      fun s hs => hvals c hc b hb s hs
    have hnsall : ∀ x ∈ kg.2,
        ∃ q, getNanoseconds x.bench.value x.bench.unit = Except.ok q := by
      intro x hx
      have hx_data : x ∈ data := by
        rw [hfilter] at hx
        exact (List.mem_filter.mp hx).1
      obtain ⟨c2, hc2, b2, hb2, rfl⟩ := hdataMem x hx_data
      exact except_isOk_exists (hunits c2 hc2 b2 hb2)
    obtain ⟨dns, hdns, _⟩ := mapM_ok_of_forall _ kg.2 hnsall
    refine ⟨{ metadata := jsObjSet (buildKeyPairs schema b.fields) "unit"
                "ns/iter",
              x := kg.2.map (·.date), dataNs := dns, dataset := kg.2,
              y := [], name := "", text := [] }, ?_⟩
    unfold traceOfGroup
    rw [hkey, hpk, hdns]
  obtain ⟨traces, htr, hall⟩ :=
    mapM_ok_of_forall (traceOfGroup schema) grouped hbody
  refine ⟨traces, ?_, ?_, hnodup, fun kg hkg => (hmemg kg hkg).1, hcover⟩
  · show separateAllTraces commits schema = Except.ok traces
    unfold separateAllTraces
    exact htr
  · exact List.Forall₂.imp (fun kg tr h => traceOfGroup_ok h) hall

/-- Witness for C8: two history entries with the same schema key and
different dates produce one trace whose two observations keep the input
order.  The first conjuncts discharge the theorem's hypotheses at this
input; the last evaluates `separateAllTraces` there. -/
theorem c8_separateAllTraces_spec_witness :
    ((∀ s ∈ ["name", "os"], printable s = true) ∧
     (∀ c ∈ [c8B1, c8B2], ∀ b ∈ c.benches, ∀ s ∈ ["name", "os"],
       printable ((b.fields.lookup s).getD "-") = true) ∧
     (∀ c ∈ [c8B1, c8B2], ∀ b ∈ c.benches,
       (getNanoseconds b.value b.unit).isOk = true)) ∧
    (∃ traces, separateAllTraces [c8B1, c8B2] ["name", "os"]
        = Except.ok traces ∧
      List.Forall₂
        (fun (kg : String × List Observation) (tr : Trace) =>
          tr.dataset = kg.2 ∧ tr.x = kg.2.map (·.date))
        (groupByKey (fun d => buildKey d.bench.fields ["name", "os"])
          (flattenObservations [c8B1, c8B2]))
        traces ∧
      ((groupByKey (fun d => buildKey d.bench.fields ["name", "os"])
          (flattenObservations [c8B1, c8B2])).map Prod.fst).Nodup ∧
      (∀ kg ∈ groupByKey (fun d => buildKey d.bench.fields ["name", "os"])
          (flattenObservations [c8B1, c8B2]),
        kg.2 = (flattenObservations [c8B1, c8B2]).filter
          fun d => buildKey d.bench.fields ["name", "os"] == kg.1) ∧
      (∀ d ∈ flattenObservations [c8B1, c8B2],
        buildKey d.bench.fields ["name", "os"]
          ∈ (groupByKey (fun d => buildKey d.bench.fields ["name", "os"])
              (flattenObservations [c8B1, c8B2])).map Prod.fst)) ∧
    separateAllTraces [c8B1, c8B2] ["name", "os"] = Except.ok
      [{ metadata := [("name", "x"), ("os", "linux"), ("unit", "ns/iter")],
         x := [100, 200], dataNs := [5, 7 * 1000000],
         dataset := [⟨⟨"c1", "m1", "u1"⟩, 100, c8R1⟩,
                     ⟨⟨"c2", "m2", "u2"⟩, 200, c8R2⟩],
         y := [], name := "", text := [] }] :=
  ⟨⟨by decide, by decide, by decide⟩,
    c8_separateAllTraces_spec [c8B1, c8B2] ["name", "os"]
      (by decide) (by decide) (by decide),
    by rfl⟩

/-- C9 (default substitution): whenever the loaded document's `schema`
(resp. `groupBy`) field is nullish, not an object, or lacks an entry for
the requested suite, the renderer continues with the documented default
field list and emits a `console.error` diagnostic. -/
theorem c9_retrieve_defaults (schemaField groupByField : JsField)
    (benchSet : String)
    (hs : ∀ m, schemaField = JsField.obj m → m.lookup benchSet = none)
    (hg : ∀ m, groupByField = JsField.obj m → m.lookup benchSet = none) :
    retrieveSchema schemaField benchSet
        = (["name", "platform", "os", "keySize", "api", "category"], true) ∧
    retrieveGroupBy groupByField benchSet = (["os"], true) := by
  constructor
  · cases schemaField with
    | absent => rfl
    | nonObject => rfl
    | obj m =>
      show (match m.lookup benchSet with
            | some s => (s, false)
            | none => (defaultSchema, true))
          = (["name", "platform", "os", "keySize", "api", "category"], true)
      rw [hs m rfl]
      rfl
  · cases groupByField with
    | absent => rfl
    | nonObject => rfl
    | obj m =>
      show (match m.lookup benchSet with
            | some g => (g, false)
            | none => (defaultGroupBy, true)) = (["os"], true)
      rw [hg m rfl]
      rfl

/-- Witness for C9: a `schema` object lacking the requested suite and an
absent `groupBy`. -/
theorem c9_retrieve_defaults_witness :
    ((∀ m, JsField.obj [("other", ["a"])] = JsField.obj m →
        m.lookup "suite" = none) ∧
     (∀ m, (JsField.absent : JsField) = JsField.obj m →
        m.lookup "suite" = none)) ∧
    (retrieveSchema (JsField.obj [("other", ["a"])]) "suite"
        = (["name", "platform", "os", "keySize", "api", "category"], true) ∧
      retrieveGroupBy JsField.absent "suite" = (["os"], true)) :=
  ⟨⟨fun m hm => by cases hm; decide, fun _ hm => nomatch hm⟩,
    c9_retrieve_defaults (JsField.obj [("other", ["a"])]) JsField.absent
      "suite" (fun m hm => by cases hm; decide) (fun _ hm => nomatch hm)⟩

theorem find?_some_split {α : Type} (p : α → Bool) :
    ∀ (l : List α) (x : α), l.find? p = some x →
      ∃ l1 l2, l = l1 ++ x :: l2 ∧ p x = true ∧ ∀ e ∈ l1, ¬ p e = true
  | [], x, h => by simp at h
  | a :: t, x, h => by
    by_cases hpa : p a = true
    · rw [List.find?_cons_of_pos _ hpa] at h
      obtain rfl : a = x := Option.some.inj h
      exact ⟨[], t, rfl, hpa, by simp⟩
    · rw [List.find?_cons_of_neg _ (by simpa using hpa)] at h
      obtain ⟨l1, l2, rfl, hx, hall⟩ := find?_some_split p t x h
      refine ⟨a :: l1, l2, rfl, hx, ?_⟩
      intro e he
      rcases List.mem_cons.mp he with rfl | he'
      · exact hpa
      · exact hall e he'

theorem reverse_find?_some {α : Type} (p : α → Bool) (l : List α) (x : α)
    (h : l.reverse.find? p = some x) :
    ∃ l1 l2, l = l1 ++ x :: l2 ∧ p x = true ∧ ∀ e ∈ l2, ¬ p e = true := by
  obtain ⟨l1, l2, hrev, hx, hall⟩ := find?_some_split p l.reverse x h
  have hl : l = (l1 ++ x :: l2).reverse := by rw [← hrev, List.reverse_reverse]
  refine ⟨l2.reverse, l1.reverse, ?_, hx,
    fun e he => hall e (by rwa [List.mem_reverse] at he)⟩
  rw [hl]
  simp

theorem addBenchmarkToDataJson_eq_new (groupBy schema : List String)
    (benchName : String) (bench : Benchmark) (data : DataJson)
    (maxItems : Option Nat) (now : Int)
    (hnone : data.entries.lookup benchName = none) :
    addBenchmarkToDataJson groupBy schema benchName bench data maxItems now
      = (none,
         { lastUpdate := now, repoUrl := data.repoUrl,
           entries := jsObjSet data.entries benchName [bench],
           groupBy := some (jsObjSet (data.groupBy.getD []) benchName groupBy),
           schema := some (jsObjSet (data.schema.getD []) benchName schema) })
    := by
  simp only [addBenchmarkToDataJson]
  rw [hnone]

theorem addBenchmarkToDataJson_eq_existing (groupBy schema : List String)
    (benchName : String) (bench : Benchmark) (data : DataJson)
    (maxItems : Option Nat) (now : Int) (old : List Benchmark)
    (hold : data.entries.lookup benchName = some old) :
    addBenchmarkToDataJson groupBy schema benchName bench data maxItems now
      = (old.reverse.find? (fun e => e.commit.id != bench.commit.id),
         { lastUpdate := now, repoUrl := data.repoUrl,
           entries := jsObjSet data.entries benchName
             (match maxItems with
              | some m =>
                if (old ++ [bench]).length > m
                then (old ++ [bench]).drop ((old ++ [bench]).length - m)
                else old ++ [bench]
              | none => old ++ [bench]),
           groupBy := some (jsObjSet (data.groupBy.getD []) benchName groupBy),
           schema := some (jsObjSet (data.schema.getD []) benchName schema) })
    := by
  simp only [addBenchmarkToDataJson]
  rw [hold]

/-- C10 (history append semantics): the new entry is appended after all
existing entries of the suite (a one-element suite is created when none
exists); the returned previous benchmark is the most recent existing
entry whose commit id differs from the new entry's (`none` when there is
none); and a non-null `maxItems` truncates the suite to its last
`maxItems` entries. -/
theorem c10_addBenchmarkToDataJson_spec (groupBy schema : List String)
    (benchName : String) (bench : Benchmark) (data : DataJson)
    (maxItems : Option Nat) (now : Int) :
    (data.entries.lookup benchName = none →
      (addBenchmarkToDataJson groupBy schema benchName bench data maxItems
          now).1 = none ∧
      (addBenchmarkToDataJson groupBy schema benchName bench data maxItems
          now).2.entries.lookup benchName = some [bench]) ∧
    (∀ old, data.entries.lookup benchName = some old →
      (addBenchmarkToDataJson groupBy schema benchName bench data maxItems
          now).1
        = old.reverse.find? (fun e => e.commit.id != bench.commit.id) ∧
      ((addBenchmarkToDataJson groupBy schema benchName bench data maxItems
          now).1 = none → ∀ e ∈ old, e.commit.id = bench.commit.id) ∧
      (∀ p, (addBenchmarkToDataJson groupBy schema benchName bench data
          maxItems now).1 = some p →
        ∃ l1 l2, old = l1 ++ p :: l2 ∧ ¬ p.commit.id = bench.commit.id ∧
          ∀ e ∈ l2, e.commit.id = bench.commit.id) ∧
      (addBenchmarkToDataJson groupBy schema benchName bench data maxItems
          now).2.entries.lookup benchName
        = some (match maxItems with
            | some m => (old ++ [bench]).drop ((old ++ [bench]).length - m)
            | none => old ++ [bench])) := by
  constructor
  · intro hnone
    rw [addBenchmarkToDataJson_eq_new groupBy schema benchName bench data
      maxItems now hnone]
    refine ⟨rfl, ?_⟩
    show (jsObjSet data.entries benchName [bench]).lookup benchName
      = some [bench]
    rw [lookup_jsObjSet, if_pos rfl]
  · intro old hold
    rw [addBenchmarkToDataJson_eq_existing groupBy schema benchName bench data
      maxItems now old hold]
    refine ⟨rfl, ?_, ?_, ?_⟩
    · intro hnone e he
      have := List.find?_eq_none.mp hnone e (by rwa [List.mem_reverse])
      simpa using this
    · intro p hp
      obtain ⟨l1, l2, heq, hpx, hall⟩ :=
        reverse_find?_some (fun e => e.commit.id != bench.commit.id) old p hp
      refine ⟨l1, l2, heq, by simpa using hpx, fun e he => ?_⟩
      have := hall e he
      simpa using this
    · show (jsObjSet data.entries benchName _).lookup benchName = some _
      rw [lookup_jsObjSet, if_pos rfl]
      congr 1
      cases maxItems with
      | none => rfl
      | some m =>
        show (if (old ++ [bench]).length > m
            then (old ++ [bench]).drop ((old ++ [bench]).length - m)
            else old ++ [bench])
          = (old ++ [bench]).drop ((old ++ [bench]).length - m)
        by_cases hlen : (old ++ [bench]).length > m
        · rw [if_pos hlen]
        · rw [if_neg hlen]
          have h0 : (old ++ [bench]).length - m = 0 :=
            Nat.sub_eq_zero_of_le (Nat.le_of_not_lt hlen)
          rw [h0, List.drop_zero]

/-- Witness for C10: creating a fresh one-element suite, and appending
to an existing suite with `maxItems = 2` (truncating to the last two
entries) where the most recent different-commit entry exists. -/
theorem c10_addBenchmarkToDataJson_spec_witness :
    (c10Empty.entries.lookup "suite" = none ∧
      ((addBenchmarkToDataJson ["os"] ["name"] "suite" c10B2 c10Empty none
          555).1 = none ∧
       (addBenchmarkToDataJson ["os"] ["name"] "suite" c10B2 c10Empty none
          555).2.entries.lookup "suite" = some [c10B2])) ∧
    (c10Data.entries.lookup "suite" = some [c10B1, c10B1] ∧
      (addBenchmarkToDataJson ["os"] ["name"] "suite" c10B2 c10Data (some 2)
          555).2.entries.lookup "suite"
        = some (([c10B1, c10B1] ++ [c10B2]).drop
            (([c10B1, c10B1] ++ [c10B2]).length - 2))) :=
  ⟨⟨rfl, (c10_addBenchmarkToDataJson_spec ["os"] ["name"] "suite" c10B2
      c10Empty none 555).1 rfl⟩,
   ⟨rfl, ((c10_addBenchmarkToDataJson_spec ["os"] ["name"] "suite" c10B2
      c10Data (some 2) 555).2 [c10B1, c10B1] rfl).2.2.2⟩⟩

/-- The final state of the C1 chart after unchecking `os = linux`,
unchecking `keySize = 512`, re-checking `linux`, and re-checking `512`:
the chart is still `display: none` and its `hidden-by` attribute is the
string `"9"` (string concatenation `"1" + 1 = "11"` on the second
uncheck, then numeric decrements), not the counter `0` and visible state
the claim describes.  This evaluates `setChartHiddenStatus` at the
claim's own concrete scenario. -/
theorem c1_toggle_scenario_code_behavior :
    runToggles c1Events [c1Chart] =
      [⟨[("os", "linux"), ("keySize", "512")], ⟨some "9", true⟩⟩] := by rfl

end BenchPlot
